import Mathlib

/-!
Verification development for the myskoxe MATXS/GENDF card-image parser.

The Python sources under `myskoxe/parse` are shallowly embedded here:

* `fortran_format.py` — `FortranFormatCardRecord` (field descriptors carrying a
  FORTRAN edit-descriptor string), the deferred-count resolution step and the
  line-reflow loop of `FortranFormatBasicCard._prepare_for_parse_card`, and the
  card-group expansion of `FortranFormatMultipleBasicCard`.
* `parse_matxs.py` — the `CardContainer` segmenter, the `FFDataRecord` decode
  walk with table expansion, and the `MATXSFile.consume_container` label
  dispatch loop.

Python strings are embedded as `List Char`; the regular expressions used by
the source (`^\d+`, `\d+$`, `re.sub("^\d+", ...)`) are embedded as the
digit-run functions below.  Python `dict`s are embedded as ordered association
lists (insertion order preserved, update in place), matching CPython
semantics.  Fallible code (assert / raise / KeyError / IndexError) is embedded
with `Option`: `none` is "some exception was raised".  The external
`fortranformat` library reader is not part of the repository; where a decode
walk consumes its output, the list of parsed values is taken as an argument.
-/

namespace Myskoxe

/-- Value of an ASCII digit character (Python `int` on a digit). -/
def digitVal (c : Char) : Nat := c.toNat - 48

/-- The digit character for `d < 10` (used to embed Python f-string number
formatting). -/
def digitChar : Nat → Char
  | 0 => '0' | 1 => '1' | 2 => '2' | 3 => '3' | 4 => '4'
  | 5 => '5' | 6 => '6' | 7 => '7' | 8 => '8' | _ => '9'

/-- Longest digit run at the start of a string: the text matched by
`re.match(r"^\d+", s)` (empty when there is no match). -/
def leadDigits (s : List Char) : List Char := s.takeWhile Char.isDigit

/-- What remains after deleting the leading digit run:
`re.sub(r"^\d+", "", s)`. -/
def dropLeadDigits (s : List Char) : List Char := s.dropWhile Char.isDigit

/-- Longest digit run at the end of a string: the text matched by
`re.search(r"\d+$", s)` (empty when there is no match). -/
def tailDigits (s : List Char) : List Char := (leadDigits s.reverse).reverse

/-- Numeric value of a digit string (Python `int` on the matched text). -/
def digitsToNat (s : List Char) : Nat := s.foldl (fun a c => 10 * a + digitVal c) 0

/-- Decimal digit string of a natural number, fuel-indexed so that it is
structurally recursive (embeds Python `f"{n}"` for a non-negative int). -/
def natCharsAux : Nat → Nat → List Char
  | 0, _ => []
  | fuel + 1, n => if n < 10 then [digitChar n] else natCharsAux fuel (n / 10) ++ [digitChar (n % 10)]

/-- Decimal digit string of a natural number. -/
def natChars (n : Nat) : List Char := natCharsAux (n + 1) n

/-- Lookup in an ordered association list (embeds a Python `dict` read;
`none` is a `KeyError`). -/
def alookup {κ β : Type} [DecidableEq κ] (k : κ) : List (κ × β) → Option β
  | [] => none
  | (a, b) :: t => if a = k then some b else alookup k t

/-- Insert-or-update for an ordered association list (embeds a Python
`dict` write: an existing key keeps its position, a new key goes last). -/
def dictSet {κ β : Type} [DecidableEq κ] (d : List (κ × β)) (k : κ) (v : β) : List (κ × β) :=
  if (alookup k d).isSome then d.map (fun p => if p.1 = k then (k, v) else p) else d ++ [(k, v)]

/-- A decoded field value: either one scalar or a list of values, as stored
in the result dictionaries of the parsers. -/
inductive ResVal (α : Type) : Type
  | one (v : α)
  | many (vs : List α)
deriving DecidableEq

namespace FortranFormat

/-- `MAX_LINE_LENGTH` from `fortran_format.py`. -/
def MAX_LINE_LENGTH : Nat := 72

/-- `RecordType` from `fortran_format.py`. -/
inductive RecordType : Type
  | SCALAR
  | ARRAY
  | NEWLINE
  | EMPTY
deriving DecidableEq

/-- `FortranFormatCardRecord`: a field descriptor carrying a FORTRAN edit
descriptor string (`format`), a record type, and an optional deferred count
source `(card label, record key)`. -/
structure FortranFormatCardRecord : Type where
  key : Option String
  format : List Char
  type : RecordType
  get_n_values_from : Option (String × String) := none
deriving DecidableEq

/-- `FortranFormatCardRecord.get_n_values`: number of values the descriptor
yields.  `SCALAR` yields 1; `ARRAY`/`EMPTY` read the leading integer of the
format (raising if there is none) and coerce a literal 0 to 1 via Python's
`int(...) or 1`; `NEWLINE` yields 0. -/
def get_n_values (r : FortranFormatCardRecord) : Option Nat :=
  match r.type with
  | .SCALAR => some 1
  | .ARRAY | .EMPTY =>
      let p := leadDigits r.format
      if p = [] then none
      else some (if digitsToNat p = 0 then 1 else digitsToNat p)
  | .NEWLINE => some 0

/-- `FortranFormatCardRecord.get_chars_per_value`: characters per value.
`SCALAR`/`ARRAY` read the trailing integer of the format (raising if there is
none); `EMPTY` falls back to 1 when there is no trailing integer; `NEWLINE`
is 0. -/
def get_chars_per_value (r : FortranFormatCardRecord) : Option Nat :=
  match r.type with
  | .SCALAR | .ARRAY =>
      let s := tailDigits r.format
      if s = [] then none else some (digitsToNat s)
  | .EMPTY =>
      let s := tailDigits r.format
      if s = [] then some 1 else some (digitsToNat s)
  | .NEWLINE => some 0

/-- The line-break record appended by the reflow loop:
`FortranFormatCardRecord(key=None, format="/", type=RecordType.NEWLINE)`. -/
def newlineRecord : FortranFormatCardRecord :=
  { key := none, format := ['/'], type := RecordType.NEWLINE }

/-- The unit descriptor built inside the explode loop of
`_prepare_for_parse_card`: leading digits removed from the format and `1`
prepended, key and type retained, deferral marker absent (dataclass default). -/
def explodeUnit (r : FortranFormatCardRecord) : FortranFormatCardRecord :=
  { key := r.key, format := '1' :: dropLeadDigits r.format, type := r.type }

/-- The inner `for i in range(record_n_values)` loop of the reflow pass: for
each of the `n` unit descriptors, first emit a line break when even one unit
does not fit, then append the unit and advance the column counter.  Returns
the emitted records and the final column counter. -/
def explodeLoop (u : FortranFormatCardRecord) (w : Nat) : Nat → Nat → List FortranFormatCardRecord × Nat
  | 0, cc => ([], cc)
  | k + 1, cc =>
      if MAX_LINE_LENGTH < cc + w then
        let rest := explodeLoop u w k w
        (newlineRecord :: u :: rest.1, rest.2)
      else
        let rest := explodeLoop u w k (cc + w)
        (u :: rest.1, rest.2)

/-- The reflow loop of `_prepare_for_parse_card` (lines 152-188 of
`fortran_format.py`), carrying the running column counter `cc`.  A `NEWLINE`
record resets the counter; a record whose total width fits is kept unchanged;
otherwise it is exploded into unit descriptors with line breaks inserted. -/
def reflowGo (cc : Nat) : List FortranFormatCardRecord → Option (List FortranFormatCardRecord)
  | [] => some []
  | r :: rs =>
      if r.type = RecordType.NEWLINE then
        (reflowGo 0 rs).map (r :: ·)
      else
        match get_n_values r, get_chars_per_value r with
        | some n, some w =>
            if cc + n * w ≤ MAX_LINE_LENGTH then
              (reflowGo (cc + n * w) rs).map (r :: ·)
            else
              let e := explodeLoop (explodeUnit r) w n cc
              (reflowGo e.2 rs).map (e.1 ++ ·)
        | _, _ => none

/-- The Line-Reflow Engine: the reflow loop started with column counter 0. -/
def reflow (rs : List FortranFormatCardRecord) : Option (List FortranFormatCardRecord) :=
  reflowGo 0 rs

/-- Width of each physical line described by a descriptor sequence: the sums
of `get_n_values * get_chars_per_value` over the maximal runs of non-`NEWLINE`
records (both the run before the first `NEWLINE` and the run after the last
one are included). -/
def lineWidthsGo : List FortranFormatCardRecord → Nat → Option (List Nat)
  | [], cc => some [cc]
  | r :: rs, cc =>
      if r.type = RecordType.NEWLINE then
        (lineWidthsGo rs 0).map (cc :: ·)
      else
        match get_n_values r, get_chars_per_value r with
        | some n, some w => lineWidthsGo rs (cc + n * w)
        | _, _ => none

/-- The physical line widths of a descriptor sequence, starting at column 0. -/
def lineWidths (rs : List FortranFormatCardRecord) : Option (List Nat) :=
  lineWidthsGo rs 0

/-- The per-value width of a descriptor is within the line limit (`getD 0`
makes the undetermined-width case vacuous). -/
def WidthWithinLimit (r : FortranFormatCardRecord) : Prop :=
  (get_chars_per_value r).getD 0 ≤ MAX_LINE_LENGTH

instance (r : FortranFormatCardRecord) : Decidable (WidthWithinLimit r) := by
  unfold WidthWithinLimit; infer_instance

/-- A value stored in the `previous_results` dictionary: either a decoded
integer scalar or a decoded list of integers (the two shapes the preparation
code reads counts from). -/
inductive PrevVal : Type
  | int (n : Nat)
  | intList (ns : List Nat)
deriving DecidableEq

/-- `previous_results`: the growing mapping from card label to that card's
result dictionary, restricted to the entries the preparation code reads. -/
abbrev ResultStore : Type := List (String × List (String × PrevVal))

/-- `previous_results[card_key][record_key]` read as an integer; `none` is a
`KeyError` (label or key absent) or a non-integer at a count position. -/
def storeLookupInt (store : ResultStore) (ck rk : String) : Option Nat :=
  match alookup ck store with
  | none => none
  | some m =>
      match alookup rk m with
      | some (PrevVal.int n) => some n
      | _ => none

/-- `previous_results[card_key][record_key]` read as an integer list (the
`_n_values_list` lookup of `FortranFormatMultipleBasicCard`). -/
def storeLookupList (store : ResultStore) (ck rk : String) : Option (List Nat) :=
  match alookup ck store with
  | none => none
  | some m =>
      match alookup rk m with
      | some (PrevVal.intList ns) => some ns
      | _ => none

/-- The deferred-count resolution step of
`FortranFormatBasicCard._prepare_for_parse_card` (lines 143-148): when
`get_n_values_from` is set, look the count up, prepend its decimal digits to
the format, and clear the marker. -/
def resolveRecord (store : ResultStore) (r : FortranFormatCardRecord) : Option FortranFormatCardRecord :=
  match r.get_n_values_from with
  | none => some r
  | some (ck, rk) =>
      match storeLookupInt store ck rk with
      | none => none
      | some n => some { r with format := natChars n ++ r.format, get_n_values_from := none }

/-- Resolution applied to every record of a card, failing as soon as one
lookup fails. -/
def resolveRecords (store : ResultStore) : List FortranFormatCardRecord → Option (List FortranFormatCardRecord)
  | [] => some []
  | r :: rs =>
      match resolveRecord store r with
      | none => none
      | some r' => (resolveRecords store rs).map (r' :: ·)

/-- `FortranFormatBasicCard._prepare_for_parse_card`: deferred-count
resolution followed by the reflow pass (the intervening `set_reader` only
rebuilds the external `fortranformat` reader and is elided). -/
def prepare_for_parse_card (store : ResultStore) (rs : List FortranFormatCardRecord) :
    Option (List FortranFormatCardRecord) :=
  match resolveRecords store rs with
  | none => none
  | some rs' => reflow rs'

/-- The per-repetition copy of the designated value record built by
`FortranFormatMultipleBasicCard._prepare_for_parse_card`: the repetition's
own count prepended to the format (marker absent by dataclass default). -/
def perValuesRecord (r : FortranFormatCardRecord) (n : Nat) : FortranFormatCardRecord :=
  { key := r.key, format := natChars n ++ r.format, type := r.type }

/-- The `new_records_lists` construction loop of
`FortranFormatMultipleBasicCard._prepare_for_parse_card` (lines 272-295):
the designated cards record creates one sublist per repetition (the assert
fails if the sublists already exist); the designated values record is copied
with the repetition's own count prepended (failing if its format already
starts with a digit); every other record is copied into each sublist (an out-
of-range sublist index is an `IndexError`). -/
def buildRepLists (cardsKey valsKey : String) (ns : List Nat) :
    List FortranFormatCardRecord → List (List FortranFormatCardRecord) →
      Option (List (List FortranFormatCardRecord))
  | [], acc => some acc
  | r :: rs, acc =>
      if r.key = some cardsKey then
        if ns.length = 0 then buildRepLists cardsKey valsKey ns rs acc
        else if acc.length = 0 then
          buildRepLists cardsKey valsKey ns rs (List.replicate ns.length [r])
        else none
      else if r.key = some valsKey then
        if leadDigits r.format = [] then
          if ns.length ≤ acc.length then
            buildRepLists cardsKey valsKey ns rs
              (List.zipWith (fun l n => l ++ [perValuesRecord r n]) acc ns ++ acc.drop ns.length)
          else none
        else none
      else
        if ns.length ≤ acc.length then
          buildRepLists cardsKey valsKey ns rs
            ((acc.take ns.length).map (· ++ [r]) ++ acc.drop ns.length)
        else none

/-- Lines 297-299: append a newline record to every repetition except the
last. -/
def addTrailingNewlines : List (List FortranFormatCardRecord) → List (List FortranFormatCardRecord)
  | [] => []
  | [l] => [l]
  | l :: l2 :: rest => (l ++ [newlineRecord]) :: addTrailingNewlines (l2 :: rest)

/-- The deferred-count resolution step of the multi-card preparation (lines
304-313): like the basic one, but it first rejects a format that already
starts with a digit. -/
def resolveRecordMulti (store : ResultStore) (r : FortranFormatCardRecord) :
    Option FortranFormatCardRecord :=
  match r.get_n_values_from with
  | none => some r
  | some (ck, rk) =>
      if leadDigits r.format = [] then
        match storeLookupInt store ck rk with
        | none => none
        | some n => some { r with format := natChars n ++ r.format, get_n_values_from := none }
      else none

/-- Multi-card resolution over all records. -/
def resolveAllMulti (store : ResultStore) :
    List FortranFormatCardRecord → Option (List FortranFormatCardRecord)
  | [] => some []
  | r :: rs =>
      match resolveRecordMulti store r with
      | none => none
      | some r' => (resolveAllMulti store rs).map (r' :: ·)

/-- `FortranFormatMultipleBasicCard._prepare_for_parse_card`: look up the
per-repetition count list, require the designated cards/values records to
exist, duplicate the schema per repetition, insert newlines between
repetitions, flatten, resolve remaining deferred counts, and reflow. -/
def multiPrepare (store : ResultStore) (cardsKey valsKey srcCard srcKey : String)
    (records : List FortranFormatCardRecord) : Option (List FortranFormatCardRecord) :=
  match storeLookupList store srcCard srcKey with
  | none => none
  | some ns =>
      if (records.find? (fun r => r.key = some cardsKey)).isSome &&
          (records.find? (fun r => r.key = some valsKey)).isSome then
        match buildRepLists cardsKey valsKey ns records [] with
        | none => none
        | some liss =>
            match resolveAllMulti store (addTrailingNewlines liss).flatten with
            | none => none
            | some resolved => reflowGo 0 resolved
      else none

/-- Apply a function to the last element of a list (embeds Python's mutation
of the dict most recently appended to `all_results`). -/
def updateLast {β : Type} (f : β → β) : List β → List β
  | [] => []
  | [x] => [f x]
  | x :: y :: t => x :: updateLast f (y :: t)

/-- The decode walk of `FortranFormatMultipleBasicCard.parse_card` (lines
219-240): skip `NEWLINE`/`EMPTY` records; the designated cards record starts
a fresh result mapping appended to the sequence; a keyed record before the
first repetition is an error; scalars bind one value, everything else binds a
slice of `get_n_values` values; the counter advances accordingly.  Returns
the final counter and the per-repetition mappings.  The parsed values are the
external reader's output; the `expected_records` self-check is absent
(`None`) in this walk. -/
def multiParseGo {α : Type} (cardsKey : String) :
    List FortranFormatCardRecord → List α → Nat → List (List (Option String × ResVal α)) →
      Option (Nat × List (List (Option String × ResVal α)))
  | [], _, counter, acc => some (counter, acc)
  | r :: rs, parsed, counter, acc =>
      if r.type = RecordType.NEWLINE ∨ r.type = RecordType.EMPTY then
        multiParseGo cardsKey rs parsed counter acc
      else
        match if r.key = some cardsKey then some (acc ++ [[]])
              else if acc.isEmpty then none else some acc with
        | none => none
        | some acc2 =>
            match get_n_values r with
            | none => none
            | some n =>
                if counter + n ≤ parsed.length then
                  if n = 1 ∧ r.type = RecordType.SCALAR then
                    match parsed.get? counter with
                    | some v =>
                        multiParseGo cardsKey rs parsed (counter + n)
                          (updateLast (fun d => dictSet d r.key (ResVal.one v)) acc2)
                    | none => none
                  else
                    multiParseGo cardsKey rs parsed (counter + n)
                      (updateLast
                        (fun d => dictSet d r.key (ResVal.many ((parsed.drop counter).take n)))
                        acc2)
                else none

/-- `FortranFormatMultipleBasicCard.parse_card` on prepared records: the walk
followed by the final counter-equals-length assert. -/
def multiParse {α : Type} (cardsKey : String) (records : List FortranFormatCardRecord)
    (parsed : List α) : Option (List (List (Option String × ResVal α))) :=
  match multiParseGo cardsKey records parsed 0 [] with
  | none => none
  | some (counter, acc) => if counter = parsed.length then some acc else none

/-- The `4d` group-structure card of the repository's schema catalogue
(`test_parse.py`): title, an 8-column skip, the per-repetition `gpb` array
and the `emin` scalar. -/
def titleRecord4d : FortranFormatCardRecord :=
  { key := some "title", format := "A4".data, type := RecordType.SCALAR }

def skipRecord4d : FortranFormatCardRecord :=
  { key := none, format := "8X".data, type := RecordType.EMPTY }

def gpbRecord4d : FortranFormatCardRecord :=
  { key := some "gpb", format := "E12.5".data, type := RecordType.ARRAY }

def eminRecord4d : FortranFormatCardRecord :=
  { key := some "emin", format := "E12.5".data, type := RecordType.SCALAR }

def card4dRecords : List FortranFormatCardRecord :=
  [titleRecord4d, skipRecord4d, gpbRecord4d, eminRecord4d]

/-- A store in which the referenced sequence `("3d", "ngrp")` resolved to
`[2, 3]`. -/
def store3d : ResultStore := [("3d", [("ngrp", PrevVal.intList [2, 3])])]

/-- The per-repetition `gpb` records with counts 2 and 3 prepended. -/
def gpb2Record : FortranFormatCardRecord :=
  { key := some "gpb", format := "2E12.5".data, type := RecordType.ARRAY }

def gpb3Record : FortranFormatCardRecord :=
  { key := some "gpb", format := "3E12.5".data, type := RecordType.ARRAY }

/-- The prepared descriptor sequence for counts `[2, 3]`: two copies of the
schema with exactly one line break between them and none after the last. -/
def card4dPrepared : List FortranFormatCardRecord :=
  [titleRecord4d, skipRecord4d, gpb2Record, eminRecord4d,
   newlineRecord,
   titleRecord4d, skipRecord4d, gpb3Record, eminRecord4d]

/-- Witness record for `resolveRecord_spec`: the `hprt` field of card `3d`,
deferred to `("1d", "npart")`. -/
def hprtRecord : FortranFormatCardRecord :=
  { key := some "hprt", format := "A8".data, type := RecordType.ARRAY,
    get_n_values_from := some ("1d", "npart") }

/-- Witness store for `resolveRecord_spec`: card `1d` decoded `npart = 3`. -/
def store1d : ResultStore := [("1d", [("npart", PrevVal.int 3)])]

/-- A resolved descriptor whose single value is wider than the line limit
(the FORTRAN text field `A100`). -/
def wideTextRecord : FortranFormatCardRecord :=
  { key := some "t", format := "A100".data, type := RecordType.SCALAR }

/-- The unit descriptor the reflow pass produces from `wideTextRecord`. -/
def wideTextUnit : FortranFormatCardRecord :=
  { key := some "t", format := "1A100".data, type := RecordType.SCALAR }


end FortranFormat

namespace ParseMatxs

/-- `LINE_LENGTH` from `parse_matxs.py`. -/
def LINE_LENGTH : Nat := 72

/-- The width validation of `CardContainer.__post_init__` (the type checks
are vacuous in the typed embedding): the list must be non-empty, and the
assert passes iff the list `idx_list_too_wide_lines` — which the code builds
from the lines whose length is at most `LINE_LENGTH` — is non-empty. -/
def cardContainerChecks (lines : List (List Char)) : Bool :=
  !lines.isEmpty &&
    !(((List.range lines.length).zip lines).filter
        (fun p => p.2.length ≤ LINE_LENGTH)).isEmpty

/-- `BaseCard` from `parse_matxs.py`. -/
structure BaseCard : Type where
  label : List Char
  level : Nat
  data : List Char
  start_idx : Nat
  stop_idx : Nat
deriving DecidableEq

/-- First character class of the second label alternative: `[ 1-9]`. -/
def isSpaceOrOneNine (c : Char) : Bool := c = ' ' || ('1' ≤ c && c ≤ '9')

/-- The label pattern `^ 0v |^[ 1-9][0-9]d ` of `_populate_cards`, returning
`match.group().strip()` on success.  The first alternative yields `"0v"`; the
second yields the two- or three-character label with its leading space
stripped. -/
def labelMatch : List Char → Option (List Char)
  | ' ' :: '0' :: 'v' :: ' ' :: _ => some ['0', 'v']
  | c1 :: c2 :: 'd' :: ' ' :: _ =>
      if isSpaceOrOneNine c1 && Char.isDigit c2 then
        some (if c1 = ' ' then [c2, 'd'] else [c1, c2, 'd'])
      else none
  | _ => none

/-- `int(re.match("\d", label).group())`: the level is the value of the first
character of the label, which must be a digit. -/
def labelLevel : List Char → Option Nat
  | [] => none
  | c :: _ => if c.isDigit then some (digitVal c) else none

/-- The `matches` list of `_populate_cards`: each label-bearing line together
with its index, in file order. -/
def lineMatchesFrom : Nat → List (List Char) → List (List Char × Nat)
  | _, [] => []
  | i, l :: ls =>
      match labelMatch l with
      | some lab => (lab, i) :: lineMatchesFrom (i + 1) ls
      | none => lineMatchesFrom (i + 1) ls

/-- The label matches of an input, indices starting at 0. -/
def lineMatches (lines : List (List Char)) : List (List Char × Nat) :=
  lineMatchesFrom 0 lines

/-- `"".join(self.lines[start_idx:stop_idx])`. -/
def sliceJoin (lines : List (List Char)) (a b : Nat) : List Char :=
  ((lines.drop a).take (b - a)).flatten

/-- The card-construction loop of `_populate_cards`: each match yields a card
whose range runs to the next match's line index, or to the end of input for
the last match. -/
def mkCards (lines : List (List Char)) : List (List Char × Nat) → Option (List BaseCard)
  | [] => some []
  | (lab, i) :: rest =>
      let stop := match rest with
        | [] => lines.length
        | (_, j) :: _ => j
      match labelLevel lab with
      | none => none
      | some lv =>
          (mkCards lines rest).map
            ({ label := lab, level := lv, data := sliceJoin lines i stop,
               start_idx := i, stop_idx := stop } :: ·)

/-- `CardContainer._populate_cards`. -/
def populateCards (lines : List (List Char)) : Option (List BaseCard) :=
  mkCards lines (lineMatches lines)

/-- Outcome of the `MATXSFile.consume_container` while-loop, modelled over
the sequence of pending card labels.  The per-card decoding of the handled
labels (`0v` through `5d`) is elided — it pops exactly one card per handled
label and does not affect the dispatch.  There is no error outcome: the
unhandled-label branch executes `break` and the `raise ValueError` after it
is unreachable, so the loop ends silently with whatever was consumed. -/
inductive ConsumeExit : Type
  | drained
  | stoppedSilently (label : List Char)
deriving DecidableEq

/-- The labels `MATXSFile.consume_container` dispatches on. -/
def handledLabel (lab : List Char) : Bool :=
  lab = ['0', 'v'] || lab = ['1', 'd'] || lab = ['2', 'd'] ||
    lab = ['3', 'd'] || lab = ['4', 'd'] || lab = ['5', 'd']

/-- The label-dispatch loop of `MATXSFile.consume_container`. -/
def consumeLoop : List (List Char) → ConsumeExit
  | [] => ConsumeExit.drained
  | lab :: rest =>
      if handledLabel lab then consumeLoop rest else ConsumeExit.stoppedSilently lab

/-- Witness input for `populateCards_segmentation`. -/
def demoLines : List (List Char) :=
  [" 1d abc".data, "cont".data, " 2d xyz".data]

/-- Witness cards for `populateCards_segmentation`. -/
def demoCards : List BaseCard :=
  [{ label := ['1', 'd'], level := 1, data := " 1d abccont".data, start_idx := 0, stop_idx := 2 },
   { label := ['2', 'd'], level := 2, data := " 2d xyz".data, start_idx := 2, stop_idx := 3 }]

/-- `FFDataRecordType` from `parse_matxs.py`. -/
inductive FFDataRecordType : Type
  | SCALAR
  | ARRAY
  | TABLE
  | EMPTY
  | DECIMAL_SHIFT
deriving DecidableEq

/-- `FFDataRecord`: a field descriptor with an explicit value count, a kind
(edit descriptor without the count), and an optional table row multiplier. -/
structure FFDataRecord : Type where
  key : Option String
  count : Nat
  kind : String
  type : FFDataRecordType
  table_rows : Option Nat := none
deriving DecidableEq

/-- `table_record_indicies`: positions of the `TABLE` records. -/
def tableIndicesFrom : Nat → List FFDataRecord → List Nat
  | _, [] => []
  | i, r :: rs =>
      if r.type = FFDataRecordType.TABLE then i :: tableIndicesFrom (i + 1) rs
      else tableIndicesFrom (i + 1) rs

/-- The record-rebuilding loop of the table expansion: at the first table
index emit the whole repeated expansion, drop the other table indices, copy
everything else. -/
def expandTablesGo (t0 : Nat) (tidx : List Nat) (expansion : List FFDataRecord) :
    Nat → List FFDataRecord → List FFDataRecord
  | _, [] => []
  | i, r :: rs =>
      (if i = t0 then expansion
       else if i ∈ tidx then []
       else [r]) ++ expandTablesGo t0 tidx expansion (i + 1) rs

/-- The contiguity assert of the table expansion: consecutive table indices
differ by exactly one. -/
def consecutiveIdx : List Nat → Bool
  | [] => true
  | [_] => true
  | a :: b :: t => (a + 1 = b : Bool) && consecutiveIdx (b :: t)

/-- The same-row-count assert of the table expansion. -/
def sameTableRows (ft : FFDataRecord) (records : List FFDataRecord) : Bool :=
  records.all fun r =>
    if r.type = FFDataRecordType.TABLE then decide (r.table_rows = ft.table_rows) else true

/-- The table expansion of `FFDataRecord.read_records` (lines 145-179 of
`parse_matxs.py`).  With more than one `TABLE` record: assert the table
indices are consecutive and the row counts agree, then replace the table run
by `table_record_indicies * table_rows` — `table_rows` concatenated copies of
the full run, i.e. one copy of all table columns per row. -/
def expandTables (records : List FFDataRecord) : Option (List FFDataRecord) :=
  let tidx := tableIndicesFrom 0 records
  if tidx.length ≤ 1 then some records
  else
    match tidx with
    | [] => some records
    | t0 :: _ =>
        match records.get? t0 with
        | none => none
        | some ft =>
            match ft.table_rows with
            | none => none
            | some rows =>
                if consecutiveIdx tidx && sameTableRows ft records then
                  let expansion :=
                    ((List.replicate rows tidx).flatten).filterMap (records.get? ·)
                  some (expandTablesGo t0 tidx expansion 0 records)
                else none

/-- Sum of the declared counts of the records that produce values (the
right-hand side of the length assert in `read_records`). -/
def declaredCount (records : List FFDataRecord) : Nat :=
  ((records.filter
      (fun r => ¬ (r.type = FFDataRecordType.EMPTY ∨ r.type = FFDataRecordType.DECIMAL_SHIFT))).map
    (fun r => r.count)).sum

/-- The result-assembly walk of `read_records` (lines 194-217): skip
`EMPTY`/`DECIMAL_SHIFT`, bind scalars, slice arrays, append table values
under their original key, advance the counter by the record count, and at
the end require the counter to equal the number of parsed values. -/
def readRecordsGo {α : Type} :
    List FFDataRecord → List α → Nat → List (Option String × ResVal α) →
      Option (List (Option String × ResVal α))
  | [], parsed, counter, res =>
      if counter = parsed.length then some res else none
  | r :: rs, parsed, counter, res =>
      if r.type = FFDataRecordType.EMPTY ∨ r.type = FFDataRecordType.DECIMAL_SHIFT then
        readRecordsGo rs parsed counter res
      else if counter + r.count ≤ parsed.length then
        match r.type with
        | FFDataRecordType.SCALAR =>
            match parsed.get? counter with
            | some v => readRecordsGo rs parsed (counter + r.count) (dictSet res r.key (ResVal.one v))
            | none => none
        | FFDataRecordType.ARRAY =>
            readRecordsGo rs parsed (counter + r.count)
              (dictSet res r.key (ResVal.many ((parsed.drop counter).take r.count)))
        | FFDataRecordType.TABLE =>
            match parsed.get? counter with
            | some v =>
                match alookup r.key res with
                | some (ResVal.many l) =>
                    readRecordsGo rs parsed (counter + r.count)
                      (dictSet res r.key (ResVal.many (l ++ [v])))
                | some (ResVal.one _) => none
                | none =>
                    readRecordsGo rs parsed (counter + r.count)
                      (dictSet res r.key (ResVal.many [v]))
            | none => none
        | _ => none
      else none

/-- `FFDataRecord.read_records`: expand the table groups, require the number
of parsed values to match the declared counts, then assemble the result
dictionary.  The external `fortranformat` reader output is the `parsed`
argument. -/
def read_records {α : Type} (records : List FFDataRecord) (parsed : List α) :
    Option (List (Option String × ResVal α)) :=
  match expandTables records with
  | none => none
  | some recs =>
      if parsed.length = declaredCount recs then readRecordsGo recs parsed 0 []
      else none

/-- A card shaped like the table group of the claim: a scalar followed by a
contiguous run of three table-tagged fields whose row count resolved to 4
(the `temp`/`sigz`/`itype` columns of material control). -/
def amassRecord : FFDataRecord :=
  { key := some "amass", count := 1, kind := "E12.5", type := FFDataRecordType.SCALAR }

def tempRecord : FFDataRecord :=
  { key := some "temp", count := 1, kind := "E12.5", type := FFDataRecordType.TABLE,
    table_rows := some 4 }

def sigzRecord : FFDataRecord :=
  { key := some "sigz", count := 1, kind := "E12.5", type := FFDataRecordType.TABLE,
    table_rows := some 4 }

def itypeRecord : FFDataRecord :=
  { key := some "itype", count := 1, kind := "I6", type := FFDataRecordType.TABLE,
    table_rows := some 4 }

def tableGroupRecords : List FFDataRecord :=
  [amassRecord, tempRecord, sigzRecord, itypeRecord]

end ParseMatxs


section DigitLemmas

theorem digitVal_digitChar {d : Nat} (h : d < 10) : digitVal (digitChar d) = d := by
  interval_cases d <;> rfl

theorem isDigit_digitChar {d : Nat} (h : d < 10) : (digitChar d).isDigit = true := by
  interval_cases d <;> rfl

theorem digitsToNat_append_singleton (xs : List Char) (c : Char) :
    digitsToNat (xs ++ [c]) = 10 * digitsToNat xs + digitVal c := by
  simp [digitsToNat, List.foldl_append]

theorem natCharsAux_sound : ∀ fuel n, n < fuel → digitsToNat (natCharsAux fuel n) = n := by
  intro fuel
  induction fuel with
  | zero => intro n h; omega
  | succ k ih =>
      intro n h
      unfold natCharsAux
      by_cases h10 : n < 10
      · simp only [h10, if_true]
        simp [digitsToNat, digitVal_digitChar h10]
      · simp only [h10, if_false]
        rw [digitsToNat_append_singleton, ih (n / 10) (by omega),
          digitVal_digitChar (Nat.mod_lt n (by omega))]
        omega

theorem natChars_sound (n : Nat) : digitsToNat (natChars n) = n :=
  natCharsAux_sound (n + 1) n (Nat.lt_succ_self n)

theorem natCharsAux_ne_nil : ∀ fuel n, n < fuel → natCharsAux fuel n ≠ [] := by
  intro fuel
  cases fuel with
  | zero => intro n h; omega
  | succ k =>
      intro n _
      unfold natCharsAux
      by_cases h10 : n < 10
      · simp [h10]
      · simp only [h10, if_false]
        intro hcon
        exact absurd (List.append_eq_nil.mp hcon).2 (by simp)

theorem natChars_ne_nil (n : Nat) : natChars n ≠ [] :=
  natCharsAux_ne_nil (n + 1) n (Nat.lt_succ_self n)

theorem natCharsAux_all_digits : ∀ fuel n, ∀ c ∈ natCharsAux fuel n, c.isDigit = true := by
  intro fuel
  induction fuel with
  | zero => intro n c hc; simp [natCharsAux] at hc
  | succ k ih =>
      intro n c hc
      unfold natCharsAux at hc
      by_cases h10 : n < 10
      · simp only [h10, if_true, List.mem_singleton] at hc
        exact hc ▸ isDigit_digitChar h10
      · simp only [h10, if_false, List.mem_append, List.mem_singleton] at hc
        rcases hc with hc | hc
        · exact ih (n / 10) c hc
        · exact hc ▸ isDigit_digitChar (Nat.mod_lt n (by omega))

theorem natChars_all_digits (n : Nat) : ∀ c ∈ natChars n, c.isDigit = true :=
  natCharsAux_all_digits (n + 1) n

theorem takeWhile_append_of_all {p : Char → Bool} :
    ∀ l1 l2 : List Char, (∀ c ∈ l1, p c = true) →
      List.takeWhile p (l1 ++ l2) = l1 ++ List.takeWhile p l2 := by
  intro l1
  induction l1 with
  | nil => intro l2 _; simp
  | cons a t ih =>
      intro l2 h
      have ha : p a = true := h a (List.mem_cons_self a t)
      simp only [List.cons_append, List.takeWhile_cons, ha, if_true]
      rw [ih l2 (fun c hc => h c (List.mem_cons_of_mem a hc))]

/-- Prepending a digit string to a digit-free string: the leading digit run
of the result is exactly the prepended digits. -/
theorem leadDigits_digits_append {ds f : List Char}
    (hds : ∀ c ∈ ds, c.isDigit = true) (hf : leadDigits f = []) :
    leadDigits (ds ++ f) = ds := by
  unfold leadDigits at *
  rw [takeWhile_append_of_all ds f hds, hf, List.append_nil]

end DigitLemmas

namespace FortranFormat

/-- C4: the field-width accessor on the descriptors of the repository's own
schema catalogue.  For `A8` and `I6` it returns the characters consumed per
value (8 and 6), but for the Real descriptor `E12.5` it returns the digits
after the decimal point (5), not the 12 characters such a field consumes:
`re.search(r"\d+$", "E12.5")` matches `"5"`. -/
theorem chars_per_value_is_trailing_digit_run :
    get_chars_per_value { key := some "gpb", format := "E12.5".data, type := RecordType.ARRAY } = some 5 ∧
    get_chars_per_value { key := some "hname", format := "A8".data, type := RecordType.SCALAR } = some 8 ∧
    get_chars_per_value { key := some "ivers", format := "I6".data, type := RecordType.SCALAR } = some 6 := by
  decide

/-- C10: for an `ARRAY` or `EMPTY` record whose format starts with a digit
run of value 0 (as produced when a deferred count resolves to 0),
`get_n_values` returns 1, never 0, because of `int(integer_match.group()) or 1`. -/
theorem get_n_values_zero_count_is_one (r : FortranFormatCardRecord)
    (h1 : r.type = RecordType.ARRAY ∨ r.type = RecordType.EMPTY)
    (h2 : leadDigits r.format ≠ [])
    (h3 : digitsToNat (leadDigits r.format) = 0) :
    get_n_values r = some 1 := by
  rcases h1 with h1 | h1 <;> simp [get_n_values, h1, h2, h3]

/-- Witness for `get_n_values_zero_count_is_one` at the format `"0I6"`. -/
theorem get_n_values_zero_count_is_one_witness :
    get_n_values { key := some "hprt", format := "0I6".data, type := RecordType.ARRAY } = some 1 :=
  get_n_values_zero_count_is_one _ (Or.inl rfl) (by decide) (by decide)

/-- C8: deferred-count resolution.  With the marker set to `(ck, rk)` and a
digit-free format (the invariant `__post_init__` enforces for deferred
records), resolution fails exactly when `previous_results[ck][rk]` is absent;
on success the marker is cleared and the resolved integer becomes the literal
leading count of the format (hence the value count, whenever it is positive). -/
theorem resolveRecord_spec (store : ResultStore) (r : FortranFormatCardRecord) (ck rk : String)
    (hm : r.get_n_values_from = some (ck, rk))
    (hf : leadDigits r.format = [])
    (ht : r.type = RecordType.ARRAY) :
    (resolveRecord store r = none ↔ storeLookupInt store ck rk = none) ∧
    (∀ n, storeLookupInt store ck rk = some n →
      resolveRecord store r =
        some { r with format := natChars n ++ r.format, get_n_values_from := none } ∧
      leadDigits (natChars n ++ r.format) = natChars n ∧
      digitsToNat (leadDigits (natChars n ++ r.format)) = n ∧
      (1 ≤ n →
        get_n_values { r with format := natChars n ++ r.format, get_n_values_from := none } = some n)) := by
  constructor
  · unfold resolveRecord
    rw [hm]
    cases h : storeLookupInt store ck rk <;> simp [h]
  · intro n hn
    have hlead : leadDigits (natChars n ++ r.format) = natChars n :=
      leadDigits_digits_append (natChars_all_digits n) hf
    refine ⟨?_, hlead, ?_, ?_⟩
    · unfold resolveRecord
      rw [hm]
      simp only [hn]
    · rw [hlead, natChars_sound]
    · intro hpos
      simp only [get_n_values, ht, hlead, natChars_ne_nil n, if_false, natChars_sound]
      have hne : ¬ n = 0 := by omega
      simp [hne]

/-- Witness for `resolveRecord_spec` at `hprtRecord` and `store1d`. -/
theorem resolveRecord_spec_witness :
    resolveRecord store1d hprtRecord = none ↔ storeLookupInt store1d "1d" "npart" = none :=
  (resolveRecord_spec store1d hprtRecord "1d" "npart" rfl (by decide) rfl).1

theorem takeWhile_dropWhile_nil (p : Char → Bool) :
    ∀ l : List Char, List.takeWhile p (List.dropWhile p l) = [] := by
  intro l
  induction l with
  | nil => rfl
  | cons a t ih =>
      by_cases h : p a
      · simp [List.dropWhile_cons, h, ih]
      · simp [List.dropWhile_cons, h, List.takeWhile_cons]

theorem dropWhile_head_false (p : Char → Bool) :
    ∀ (l : List Char) (c : Char) (cs : List Char), List.dropWhile p l = c :: cs → p c = false := by
  intro l
  induction l with
  | nil => intro c cs h; simp at h
  | cons a t ih =>
      intro c cs h
      by_cases ha : p a
      · rw [List.dropWhile_cons, if_pos ha] at h
        exact ih c cs h
      · rw [List.dropWhile_cons, if_neg ha] at h
        cases h
        simpa using ha

theorem takeWhile_append_stops {p : Char → Bool} :
    ∀ (l1 l2 : List Char) (x : Char), x ∈ l1 → p x = false →
      List.takeWhile p (l1 ++ l2) = List.takeWhile p l1 := by
  intro l1
  induction l1 with
  | nil => intro l2 x hx; simp at hx
  | cons a t ih =>
      intro l2 x hx hpx
      by_cases ha : p a
      · rcases List.mem_cons.mp hx with rfl | hx'
        · rw [ha] at hpx; cases hpx
        · simp only [List.cons_append, List.takeWhile_cons, ha, if_true]
          rw [ih l2 x hx' hpx]
      · simp [List.takeWhile_cons, ha]

/-- The trailing digit run ignores everything left of a non-digit. -/
theorem tailDigits_append_right :
    ∀ (l1 l2 : List Char) (x : Char), x ∈ l2 → x.isDigit = false →
      tailDigits (l1 ++ l2) = tailDigits l2 := by
  intro l1 l2 x hx hdx
  unfold tailDigits leadDigits
  rw [List.reverse_append,
    takeWhile_append_stops l2.reverse l1.reverse x (List.mem_reverse.mpr hx) hdx]

theorem explodeUnit_type (r : FortranFormatCardRecord) : (explodeUnit r).type = r.type := rfl

/-- A unit descriptor always yields exactly one value: its format starts with
the digit run `"1"`. -/
theorem explodeUnit_n_values {r : FortranFormatCardRecord}
    (h : r.type ≠ RecordType.NEWLINE) : get_n_values (explodeUnit r) = some 1 := by
  have hlead : leadDigits ('1' :: dropLeadDigits r.format) = ['1'] := by
    unfold leadDigits dropLeadDigits
    rw [List.takeWhile_cons, if_pos (by decide)]
    rw [takeWhile_dropWhile_nil]
  cases htype : r.type with
  | NEWLINE => exact absurd htype h
  | SCALAR => simp [get_n_values, explodeUnit, htype]
  | ARRAY => simp [get_n_values, explodeUnit, htype, hlead, digitsToNat, digitVal]
  | EMPTY => simp [get_n_values, explodeUnit, htype, hlead, digitsToNat, digitVal]

/-- The per-value width of a unit descriptor: it equals the original
record's width, except that a format that is one whole digit run collapses to
width 1. -/
theorem explodeUnit_width {r : FortranFormatCardRecord} {w : Nat}
    (hw : get_chars_per_value r = some w) (h : r.type ≠ RecordType.NEWLINE) :
    ∃ wu, get_chars_per_value (explodeUnit r) = some wu ∧ (wu = w ∨ wu = 1) := by
  cases hrest : dropLeadDigits r.format with
  | nil =>
      have hfmt : (explodeUnit r).format = ['1'] := by
        simp [explodeUnit, hrest]
      have htd : tailDigits (['1'] : List Char) = ['1'] := by decide
      refine ⟨1, ?_, Or.inr rfl⟩
      cases htype : r.type with
      | NEWLINE => exact absurd htype h
      | SCALAR => simp [get_chars_per_value, explodeUnit_type, htype, hfmt, htd, digitsToNat, digitVal]
      | ARRAY => simp [get_chars_per_value, explodeUnit_type, htype, hfmt, htd, digitsToNat, digitVal]
      | EMPTY => simp [get_chars_per_value, explodeUnit_type, htype, hfmt, htd, digitsToNat, digitVal]
  | cons c cs =>
      have hc : c.isDigit = false := dropWhile_head_false Char.isDigit r.format c cs hrest
      have hsplit : r.format = leadDigits r.format ++ (c :: cs) := by
        rw [← hrest]
        exact (List.takeWhile_append_dropWhile (p := Char.isDigit) (l := r.format)).symm
      have htail1 : tailDigits r.format = tailDigits (c :: cs) := by
        conv_lhs => rw [hsplit]
        exact tailDigits_append_right _ _ c (List.mem_cons_self c cs) hc
      have htail2 : tailDigits ((explodeUnit r).format) = tailDigits (c :: cs) := by
        have hfmt : (explodeUnit r).format = ['1'] ++ (c :: cs) := by
          simp [explodeUnit, hrest]
        rw [hfmt]
        exact tailDigits_append_right _ _ c (List.mem_cons_self c cs) hc
      have htail : tailDigits ((explodeUnit r).format) = tailDigits r.format := by
        rw [htail1, htail2]
      have hsame : get_chars_per_value (explodeUnit r) = get_chars_per_value r := by
        unfold get_chars_per_value
        rw [explodeUnit_type, htail]
      exact ⟨w, hsame ▸ hw, Or.inl rfl⟩

/-- Line-width accounting through the explode loop: provided each unit fits
within the limit on its own (`wu ≤ w ≤ 72`), the widths of the lines the loop
closes stay within the limit, and the loop hands the rest of the sequence a
column counter no larger than the loop's own counter. -/
theorem explodeLoop_widths (u : FortranFormatCardRecord) (w wu : Nat)
    (hn : get_n_values u = some 1) (hw : get_chars_per_value u = some wu)
    (ht : ¬ u.type = RecordType.NEWLINE) (hwu : wu ≤ w) (hw72 : w ≤ MAX_LINE_LENGTH) :
    ∀ (k cc cc' : Nat), cc' ≤ cc → cc ≤ MAX_LINE_LENGTH →
      ∃ ws cc2', (∀ x ∈ ws, x ≤ MAX_LINE_LENGTH) ∧
        cc2' ≤ (explodeLoop u w k cc).2 ∧ (explodeLoop u w k cc).2 ≤ MAX_LINE_LENGTH ∧
        ∀ tail, lineWidthsGo ((explodeLoop u w k cc).1 ++ tail) cc' =
          (lineWidthsGo tail cc2').map (ws ++ ·) := by
  intro k
  induction k with
  | zero =>
      intro cc cc' hle hcc
      refine ⟨[], cc', by simp, hle, hcc, ?_⟩
      intro tail
      cases hlw : lineWidthsGo tail cc' <;> simp [explodeLoop, hlw]
  | succ k ih =>
      intro cc cc' hle hcc
      by_cases hb : MAX_LINE_LENGTH < cc + w
      · obtain ⟨ws1, cc2', hws1, hcc2', hfin, hspec⟩ := ih w wu hwu hw72
        have hloop : explodeLoop u w (k + 1) cc =
            (newlineRecord :: u :: (explodeLoop u w k w).1, (explodeLoop u w k w).2) := by
          simp [explodeLoop, hb]
        refine ⟨cc' :: ws1, cc2', ?_, ?_, ?_, ?_⟩
        · intro x hx
          rcases List.mem_cons.mp hx with rfl | hx'
          · omega
          · exact hws1 x hx'
        · rw [hloop]; exact hcc2'
        · rw [hloop]; exact hfin
        · intro tail
          rw [hloop]
          have step1 : lineWidthsGo ((newlineRecord :: u :: (explodeLoop u w k w).1) ++ tail) cc' =
              (lineWidthsGo ((u :: (explodeLoop u w k w).1) ++ tail) 0).map (cc' :: ·) := by
            simp [lineWidthsGo, newlineRecord]
          have step2 : lineWidthsGo ((u :: (explodeLoop u w k w).1) ++ tail) 0 =
              lineWidthsGo ((explodeLoop u w k w).1 ++ tail) wu := by
            simp only [List.cons_append, lineWidthsGo, if_neg ht, hn, hw]
            norm_num
          rw [step1, step2, hspec tail]
          cases lineWidthsGo tail cc2' <;> simp
      · obtain ⟨ws1, cc2', hws1, hcc2', hfin, hspec⟩ := ih (cc + w) (cc' + wu) (by omega) (by omega)
        have hloop : explodeLoop u w (k + 1) cc =
            (u :: (explodeLoop u w k (cc + w)).1, (explodeLoop u w k (cc + w)).2) := by
          simp [explodeLoop, hb]
        refine ⟨ws1, cc2', hws1, ?_, ?_, ?_⟩
        · rw [hloop]; exact hcc2'
        · rw [hloop]; exact hfin
        · intro tail
          rw [hloop]
          have step2 : lineWidthsGo ((u :: (explodeLoop u w k (cc + w)).1) ++ tail) cc' =
              lineWidthsGo ((explodeLoop u w k (cc + w)).1 ++ tail) (cc' + wu) := by
            simp only [List.cons_append, lineWidthsGo, if_neg ht, hn, hw]
            norm_num
          rw [step2, hspec tail]

/-- In the non-fitting branch of the reflow loop the per-value width is
positive (a zero-width record always fits). -/
theorem explode_branch_width_pos {cc n w : Nat}
    (hcc : cc ≤ MAX_LINE_LENGTH) (hfit : ¬ cc + n * w ≤ MAX_LINE_LENGTH) : 0 < w := by
  rcases Nat.eq_zero_or_pos w with rfl | h
  · simp at hfit; omega
  · exact h

/-- Main invariant of the reflow loop: starting from a column counter within
the limit, and with every record's per-value width within the limit, every
line of the produced sequence is within the limit — measured by the produced
records' own `get_n_values * get_chars_per_value`, starting from any column
counter below the loop's. -/
theorem reflowGo_widths :
    ∀ rs : List FortranFormatCardRecord, (∀ r ∈ rs, WidthWithinLimit r) →
      ∀ (cc cc' : Nat) (out : List FortranFormatCardRecord), cc' ≤ cc → cc ≤ MAX_LINE_LENGTH →
        reflowGo cc rs = some out →
        ∃ ws, lineWidthsGo out cc' = some ws ∧ ∀ x ∈ ws, x ≤ MAX_LINE_LENGTH := by
  intro rs
  induction rs with
  | nil =>
      intro _ cc cc' out hle hcc hr
      simp only [reflowGo, Option.some.injEq] at hr
      subst hr
      exact ⟨[cc'], rfl, by intro x hx; simp at hx; omega⟩
  | cons r rs ih =>
      intro hb cc cc' out hle hcc hr
      have hbr : WidthWithinLimit r := hb r (List.mem_cons_self r rs)
      have hbs : ∀ x ∈ rs, WidthWithinLimit x := fun x hx => hb x (List.mem_cons_of_mem r hx)
      by_cases hnl : r.type = RecordType.NEWLINE
      · rw [reflowGo, if_pos hnl] at hr
        obtain ⟨out', hout', rfl⟩ := Option.map_eq_some'.mp hr
        obtain ⟨ws', hws', hwb⟩ := ih hbs 0 0 out' (le_refl 0) (by simp [MAX_LINE_LENGTH]) hout'
        refine ⟨cc' :: ws', ?_, ?_⟩
        · simp only [lineWidthsGo, if_pos hnl, hws', Option.map_some']
        · intro x hx
          rcases List.mem_cons.mp hx with rfl | hx'
          · omega
          · exact hwb x hx'
      · rw [reflowGo, if_neg hnl] at hr
        cases hgn : get_n_values r with
        | none => rw [hgn] at hr; cases hgw : get_chars_per_value r <;> rw [hgw] at hr <;> cases hr
        | some n =>
            cases hgw : get_chars_per_value r with
            | none => rw [hgn, hgw] at hr; cases hr
            | some w =>
                rw [hgn, hgw] at hr
                dsimp only at hr
                have hw72 : w ≤ MAX_LINE_LENGTH := by
                  have := hbr
                  unfold WidthWithinLimit at this
                  rw [hgw] at this
                  exact this
                by_cases hfit : cc + n * w ≤ MAX_LINE_LENGTH
                · rw [if_pos hfit] at hr
                  obtain ⟨out', hout', rfl⟩ := Option.map_eq_some'.mp hr
                  obtain ⟨ws', hws', hwb⟩ :=
                    ih hbs (cc + n * w) (cc' + n * w) out' (by omega) hfit hout'
                  refine ⟨ws', ?_, hwb⟩
                  simp only [lineWidthsGo, if_neg hnl, hgn, hgw]
                  exact hws'
                · rw [if_neg hfit] at hr
                  obtain ⟨out', hout', rfl⟩ := Option.map_eq_some'.mp hr
                  have hwpos : 0 < w := explode_branch_width_pos hcc hfit
                  have hun : get_n_values (explodeUnit r) = some 1 := explodeUnit_n_values hnl
                  obtain ⟨wu, huw, hcase⟩ := explodeUnit_width hgw hnl
                  have hwu : wu ≤ w := by omega
                  obtain ⟨ws1, cc2', hws1, hcc2', hfin, hspec⟩ :=
                    explodeLoop_widths (explodeUnit r) w wu hun huw
                      (by rw [explodeUnit_type]; exact hnl) hwu hw72 n cc cc' hle hcc
                  obtain ⟨ws2, hws2, hwb2⟩ := ih hbs _ cc2' out' hcc2' hfin hout'
                  refine ⟨ws1 ++ ws2, ?_, ?_⟩
                  · rw [hspec out', hws2]
                    rfl
                  · intro x hx
                    rcases List.mem_append.mp hx with hx' | hx'
                    · exact hws1 x hx'
                    · exact hwb2 x hx'

/-- C1 (amended): for every resolved descriptor sequence in which each
descriptor's per-value width is within the 72-character limit, the reflow
pass produces a sequence whose every physical line width (cumulative
`count * chars-per-value` between consecutive `LineBreak` markers or sequence
boundaries) is within the limit. -/
theorem reflow_respects_line_limit (rs out : List FortranFormatCardRecord)
    (hb : ∀ r ∈ rs, WidthWithinLimit r) (hr : reflow rs = some out) :
    ∃ ws, lineWidths out = some ws ∧ ∀ x ∈ ws, x ≤ MAX_LINE_LENGTH :=
  reflowGo_widths rs hb 0 0 out (le_refl 0) (by simp [MAX_LINE_LENGTH]) hr

/-- Witness for `reflow_respects_line_limit`: a one-field `I6` card reflows
to itself with the single line width 6. -/
theorem reflow_respects_line_limit_witness :
    ∃ ws, lineWidths [{ key := some "ivers", format := "I6".data, type := RecordType.SCALAR }] =
      some ws ∧ ∀ x ∈ ws, x ≤ MAX_LINE_LENGTH :=
  reflow_respects_line_limit
    [{ key := some "ivers", format := "I6".data, type := RecordType.SCALAR }]
    [{ key := some "ivers", format := "I6".data, type := RecordType.SCALAR }]
    (by decide) (by decide)

/-- C1 (counterexample): a single resolved `A100` text descriptor — one value
100 characters wide — reflows to a sequence whose second line is 100
characters wide, beyond the 72-character limit. -/
theorem reflow_line_limit_counterexample :
    reflow [wideTextRecord] = some [newlineRecord, wideTextUnit] ∧
    lineWidths [newlineRecord, wideTextUnit] = some [0, 100] ∧
    ¬ (∀ x ∈ ([0, 100] : List Nat), x ≤ MAX_LINE_LENGTH) := by
  decide

/-- A second reflow pass walks straight through the records the explode loop
emitted: every unit fits (its width is at most `w ≤ 72`), so the loop's
output is reproduced verbatim, with a column counter again dominated by the
first pass's. -/
theorem explodeLoop_reflow (u : FortranFormatCardRecord) (w wu : Nat)
    (hn : get_n_values u = some 1) (hw : get_chars_per_value u = some wu)
    (ht : ¬ u.type = RecordType.NEWLINE) (hwu : wu ≤ w) (hw72 : w ≤ MAX_LINE_LENGTH) :
    ∀ (k cc cc' : Nat), cc' ≤ cc → cc ≤ MAX_LINE_LENGTH →
      ∃ cc2', cc2' ≤ (explodeLoop u w k cc).2 ∧ (explodeLoop u w k cc).2 ≤ MAX_LINE_LENGTH ∧
        ∀ tail, reflowGo cc' ((explodeLoop u w k cc).1 ++ tail) =
          (reflowGo cc2' tail).map ((explodeLoop u w k cc).1 ++ ·) := by
  intro k
  induction k with
  | zero =>
      intro cc cc' hle hcc
      refine ⟨cc', hle, hcc, ?_⟩
      intro tail
      cases hrf : reflowGo cc' tail <;> simp [explodeLoop, hrf]
  | succ k ih =>
      intro cc cc' hle hcc
      by_cases hb : MAX_LINE_LENGTH < cc + w
      · obtain ⟨cc2', hcc2', hfin, hspec⟩ := ih w wu hwu hw72
        have hloop : explodeLoop u w (k + 1) cc =
            (newlineRecord :: u :: (explodeLoop u w k w).1, (explodeLoop u w k w).2) := by
          simp [explodeLoop, hb]
        refine ⟨cc2', by rw [hloop]; exact hcc2', by rw [hloop]; exact hfin, ?_⟩
        intro tail
        rw [hloop]
        have step1 : reflowGo cc' ((newlineRecord :: u :: (explodeLoop u w k w).1) ++ tail) =
            (reflowGo 0 ((u :: (explodeLoop u w k w).1) ++ tail)).map (newlineRecord :: ·) := by
          simp [reflowGo, newlineRecord]
        have hfit : 0 + 1 * wu ≤ MAX_LINE_LENGTH := by omega
        have step2 : reflowGo 0 ((u :: (explodeLoop u w k w).1) ++ tail) =
            (reflowGo wu ((explodeLoop u w k w).1 ++ tail)).map (u :: ·) := by
          simp only [List.cons_append, reflowGo, if_neg ht, hn, hw]
          rw [if_pos hfit]
          norm_num
        rw [step1, step2, hspec tail]
        cases reflowGo cc2' tail <;> simp
      · obtain ⟨cc2', hcc2', hfin, hspec⟩ := ih (cc + w) (cc' + wu) (by omega) (by omega)
        have hloop : explodeLoop u w (k + 1) cc =
            (u :: (explodeLoop u w k (cc + w)).1, (explodeLoop u w k (cc + w)).2) := by
          simp [explodeLoop, hb]
        refine ⟨cc2', by rw [hloop]; exact hcc2', by rw [hloop]; exact hfin, ?_⟩
        intro tail
        rw [hloop]
        have hfit : cc' + 1 * wu ≤ MAX_LINE_LENGTH := by omega
        have step2 : reflowGo cc' ((u :: (explodeLoop u w k (cc + w)).1) ++ tail) =
            (reflowGo (cc' + wu) ((explodeLoop u w k (cc + w)).1 ++ tail)).map (u :: ·) := by
          simp only [List.cons_append, reflowGo, if_neg ht, hn, hw]
          rw [if_pos hfit]
          norm_num
        rw [step2, hspec tail]
        cases reflowGo cc2' tail <;> simp

/-- Reflow output is a fixed point of the reflow loop, from any dominated
starting column, provided every input record's per-value width is within the
limit. -/
theorem reflowGo_fixed :
    ∀ rs : List FortranFormatCardRecord, (∀ r ∈ rs, WidthWithinLimit r) →
      ∀ (cc cc' : Nat) (out : List FortranFormatCardRecord), cc' ≤ cc → cc ≤ MAX_LINE_LENGTH →
        reflowGo cc rs = some out → reflowGo cc' out = some out := by
  intro rs
  induction rs with
  | nil =>
      intro _ cc cc' out _ _ hr
      simp only [reflowGo, Option.some.injEq] at hr
      subst hr
      rfl
  | cons r rs ih =>
      intro hb cc cc' out hle hcc hr
      have hbr : WidthWithinLimit r := hb r (List.mem_cons_self r rs)
      have hbs : ∀ x ∈ rs, WidthWithinLimit x := fun x hx => hb x (List.mem_cons_of_mem r hx)
      by_cases hnl : r.type = RecordType.NEWLINE
      · rw [reflowGo, if_pos hnl] at hr
        obtain ⟨out', hout', rfl⟩ := Option.map_eq_some'.mp hr
        have hfix : reflowGo 0 out' = some out' :=
          ih hbs 0 0 out' (le_refl 0) (by simp [MAX_LINE_LENGTH]) hout'
        rw [reflowGo, if_pos hnl, hfix]
        rfl
      · rw [reflowGo, if_neg hnl] at hr
        cases hgn : get_n_values r with
        | none => rw [hgn] at hr; cases hgw : get_chars_per_value r <;> rw [hgw] at hr <;> cases hr
        | some n =>
            cases hgw : get_chars_per_value r with
            | none => rw [hgn, hgw] at hr; cases hr
            | some w =>
                rw [hgn, hgw] at hr
                dsimp only at hr
                have hw72 : w ≤ MAX_LINE_LENGTH := by
                  have := hbr
                  unfold WidthWithinLimit at this
                  rw [hgw] at this
                  exact this
                by_cases hfit : cc + n * w ≤ MAX_LINE_LENGTH
                · rw [if_pos hfit] at hr
                  obtain ⟨out', hout', rfl⟩ := Option.map_eq_some'.mp hr
                  have hfix : reflowGo (cc' + n * w) out' = some out' :=
                    ih hbs (cc + n * w) (cc' + n * w) out' (by omega) hfit hout'
                  have hfit' : cc' + n * w ≤ MAX_LINE_LENGTH := by omega
                  rw [reflowGo, if_neg hnl, hgn, hgw]
                  dsimp only
                  rw [if_pos hfit', hfix]
                  rfl
                · rw [if_neg hfit] at hr
                  obtain ⟨out', hout', rfl⟩ := Option.map_eq_some'.mp hr
                  have hwpos : 0 < w := explode_branch_width_pos hcc hfit
                  have hun : get_n_values (explodeUnit r) = some 1 := explodeUnit_n_values hnl
                  obtain ⟨wu, huw, hcase⟩ := explodeUnit_width hgw hnl
                  have hwu : wu ≤ w := by omega
                  obtain ⟨cc2', hcc2', hfin, hspec⟩ :=
                    explodeLoop_reflow (explodeUnit r) w wu hun huw
                      (by rw [explodeUnit_type]; exact hnl) hwu hw72 n cc cc' hle hcc
                  have hfix : reflowGo cc2' out' = some out' :=
                    ih hbs _ cc2' out' hcc2' hfin hout'
                  rw [hspec out', hfix]
                  rfl

/-- C5 (amended): the Line-Reflow Engine is idempotent on every resolved
descriptor sequence whose descriptors each have per-value width within the
72-character limit: reflowing its own output changes nothing. -/
theorem reflow_idempotent (rs out : List FortranFormatCardRecord)
    (hb : ∀ r ∈ rs, WidthWithinLimit r) (hr : reflow rs = some out) :
    reflow out = some out :=
  reflowGo_fixed rs hb 0 0 out (le_refl 0) (by simp [MAX_LINE_LENGTH]) hr

/-- Witness for `reflow_idempotent`: a two-field card that needs one break. -/
theorem reflow_idempotent_witness :
    reflow [{ key := some "hsetid", format := "9A8".data, type := RecordType.ARRAY }] =
      some [{ key := some "hsetid", format := "9A8".data, type := RecordType.ARRAY }] :=
  reflow_idempotent
    [{ key := some "hsetid", format := "9A8".data, type := RecordType.ARRAY }]
    [{ key := some "hsetid", format := "9A8".data, type := RecordType.ARRAY }]
    (by decide) (by decide)

/-- C5 (counterexample): reflow is not idempotent on a descriptor whose
single value is wider than the line limit — a second pass inserts another
line break in front of the already-emitted one. -/
theorem reflow_idempotent_counterexample :
    reflow [wideTextRecord] = some [newlineRecord, wideTextUnit] ∧
    reflow [newlineRecord, wideTextUnit] =
      some [newlineRecord, newlineRecord, wideTextUnit] ∧
    ([newlineRecord, newlineRecord, wideTextUnit] : List FortranFormatCardRecord) ≠
      [newlineRecord, wideTextUnit] := by
  decide

/-- C7: preparing the `4d` card-group schema with repetition counts resolved
from `("3d", "ngrp") = [2, 3]` duplicates the full descriptor sequence once
per repetition, gives the per-repetition `gpb` record the counts 2 and 3, and
inserts exactly one line-break descriptor between the repetitions and none
after the last; decoding the prepared sequence returns an ordered pair of
per-repetition mappings, the first consuming 2 values for `gpb`, the second
3.  The parsed values are `100 * repetition + position`. -/
theorem multi_card_group_preparation :
    multiPrepare store3d "title" "gpb" "3d" "ngrp" card4dRecords = some card4dPrepared ∧
    (card4dPrepared.filter (fun r => r.type = RecordType.NEWLINE)).length = 1 ∧
    card4dPrepared.getLast? ≠ some newlineRecord ∧
    multiParse "title" card4dPrepared
        ([101, 111, 112, 120, 201, 211, 212, 213, 220] : List Nat) =
      some [[(some "title", ResVal.one 101),
             (some "gpb", ResVal.many [111, 112]),
             (some "emin", ResVal.one 120)],
            [(some "title", ResVal.one 201),
             (some "gpb", ResVal.many [211, 212, 213]),
             (some "emin", ResVal.one 220)]] := by
  decide

end FortranFormat

namespace ParseMatxs

/-- C2 (code evaluation at the failing input): a card stream with an 80-
character line passes the `CardContainer.__post_init__` validation as long as
one other line is within the limit, because the check collects the lines
whose length is *within* the limit and asserts that list to be non-empty —
the comparison is inverted with respect to the assert's own message.  Only
when every line is over the limit does construction fail. -/
theorem cardContainer_accepts_too_wide_line :
    cardContainerChecks [List.replicate 80 'x', " ok".data] = true ∧
    (List.replicate 80 'x').length = 80 ∧
    ¬ (List.replicate 80 'x').length ≤ LINE_LENGTH ∧
    cardContainerChecks [List.replicate 80 'x'] = false := by
  decide

/-- C3 (code evaluation at the failing input): a pending card labelled `6d`
— a label the `MATXSFile.consume_container` dispatch does not handle — makes
the loop stop silently with a partial tree instead of raising: the `raise`
statement sits after `break` and is unreachable.  A line bearing `6d` at the
fixed column is accepted by the segmenter, so such a stream is reachable. -/
theorem consume_unknown_label_is_silent :
    labelMatch " 6d x".data = some ['6', 'd'] ∧
    consumeLoop [['6', 'd']] = ConsumeExit.stoppedSilently ['6', 'd'] ∧
    consumeLoop [['0', 'v'], ['1', 'd'], ['6', 'd']] =
      ConsumeExit.stoppedSilently ['6', 'd'] := by
  decide

/-- Indices produced by the match scan are at least the starting index. -/
theorem lineMatchesFrom_ge :
    ∀ (ls : List (List Char)) (i : Nat) (p : List Char × Nat),
      p ∈ lineMatchesFrom i ls → i ≤ p.2 := by
  intro ls
  induction ls with
  | nil => intro i p hp; simp [lineMatchesFrom] at hp
  | cons l t ih =>
      intro i p hp
      rw [lineMatchesFrom] at hp
      cases hm : labelMatch l with
      | none =>
          rw [hm] at hp
          have := ih (i + 1) p hp
          omega
      | some lab =>
          rw [hm] at hp
          rcases List.mem_cons.mp hp with rfl | hp'
          · exact le_refl i
          · have := ih (i + 1) p hp'
            omega

/-- Indices produced by the match scan are strictly increasing. -/
theorem lineMatchesFrom_chain :
    ∀ (ls : List (List Char)) (i : Nat),
      List.Chain' (fun a b : List Char × Nat => a.2 < b.2) (lineMatchesFrom i ls) := by
  intro ls
  induction ls with
  | nil => intro i; simp [lineMatchesFrom]
  | cons l t ih =>
      intro i
      rw [lineMatchesFrom]
      cases hm : labelMatch l with
      | none => exact ih (i + 1)
      | some lab =>
          rw [List.chain'_cons']
          refine ⟨?_, ih (i + 1)⟩
          intro b hb
          have hmem : b ∈ lineMatchesFrom (i + 1) t := List.mem_of_mem_head? hb
          have := lineMatchesFrom_ge t (i + 1) b hmem
          simpa using by omega

/-- Structure of the cards built from a match list: the cards carry the
match labels and indices in order, each card's range ends where the next
card's begins (the last ending at the end of input), and each card's data is
exactly the concatenation of the lines in its range. -/
theorem mkCards_spec (lines : List (List Char)) :
    ∀ (ms : List (List Char × Nat)) (cards : List BaseCard), mkCards lines ms = some cards →
      cards.map (fun c => (c.label, c.start_idx)) = ms ∧
      List.Chain' (fun a b => a.stop_idx = b.start_idx) cards ∧
      (∀ c, cards.getLast? = some c → c.stop_idx = lines.length) ∧
      (∀ c ∈ cards, c.data = sliceJoin lines c.start_idx c.stop_idx) := by
  intro ms
  induction ms with
  | nil =>
      intro cards h
      simp only [mkCards, Option.some.injEq] at h
      subst h
      simp
  | cons m rest ih =>
      obtain ⟨lab, i⟩ := m
      intro cards h
      rw [show mkCards lines ((lab, i) :: rest) =
          (match labelLevel lab with
           | none => none
           | some lv =>
               (mkCards lines rest).map
                 ({ label := lab, level := lv,
                    data := sliceJoin lines i
                      (match rest with | [] => lines.length | (_, j) :: _ => j),
                    start_idx := i,
                    stop_idx := match rest with | [] => lines.length | (_, j) :: _ => j } :: ·))
          from rfl] at h
      cases hlv : labelLevel lab with
      | none => rw [hlv] at h; cases h
      | some lv =>
          rw [hlv] at h
          obtain ⟨cards', hrest, rfl⟩ := Option.map_eq_some'.mp h
          obtain ⟨hmap, hchain, hlast, hdata⟩ := ih cards' hrest
          refine ⟨?_, ?_, ?_, ?_⟩
          · simp only [List.map_cons, hmap]
          · rw [List.chain'_cons']
            refine ⟨?_, hchain⟩
            intro b hb
            cases hr : rest with
            | nil =>
                rw [hr] at hmap
                have : cards' = [] := List.map_eq_nil_iff.mp hmap
                rw [this] at hb
                simp at hb
            | cons m2 rest2 =>
                obtain ⟨lab2, j⟩ := m2
                rw [hr] at hmap
                cases hcards' : cards' with
                | nil => rw [hcards'] at hmap; simp at hmap
                | cons c1 t =>
                    rw [hcards'] at hmap hb
                    simp only [List.head?_cons, Option.mem_def, Option.some.injEq] at hb
                    subst hb
                    have h1 : (c1.label, c1.start_idx) = (lab2, j) := by
                      have := congrArg (fun l => l.head?) hmap
                      simpa using this
                    have : c1.start_idx = j := congrArg Prod.snd h1
                    simp [hr, this]
          · intro c hc
            cases hcards' : cards' with
            | nil =>
                rw [hcards'] at hc
                simp only [List.getLast?_singleton, Option.some.injEq] at hc
                subst hc
                have : rest = [] := by
                  rw [hcards'] at hmap
                  simpa using hmap.symm
                simp [this]
            | cons c1 t =>
                rw [hcards'] at hc hlast
                rw [List.getLast?_cons_cons] at hc
                exact hlast c hc
          · intro c hc
            rcases List.mem_cons.mp hc with rfl | hc'
            · rfl
            · exact hdata c hc'

/-- C9: segmentation invariants of `CardContainer._populate_cards`.  The
produced cards carry the label-bearing lines in file order with strictly
increasing start indices; each card's range runs from its label line up to
(not including) the next label line; consecutive cards are contiguous; the
last card's range ends at the total number of input lines; and each card's
data is the concatenation of the lines in its range. -/
theorem populateCards_segmentation (lines : List (List Char)) (cards : List BaseCard)
    (h : populateCards lines = some cards) :
    cards.map (fun c => (c.label, c.start_idx)) = lineMatches lines ∧
    List.Chain' (fun a b => a.start_idx < b.start_idx) cards ∧
    List.Chain' (fun a b => a.stop_idx = b.start_idx) cards ∧
    (∀ c, cards.getLast? = some c → c.stop_idx = lines.length) ∧
    (∀ c ∈ cards, c.data = sliceJoin lines c.start_idx c.stop_idx) := by
  obtain ⟨hmap, hchain, hlast, hdata⟩ := mkCards_spec lines (lineMatches lines) cards h
  refine ⟨hmap, ?_, hchain, hlast, hdata⟩
  have hmono : List.Chain' (fun a b : List Char × Nat => a.2 < b.2) (lineMatches lines) :=
    lineMatchesFrom_chain lines 0
  rw [← hmap] at hmono
  rw [List.chain'_map] at hmono
  exact hmono

/-- Witness for `populateCards_segmentation` at `demoLines`. -/
theorem populateCards_segmentation_witness :
    demoCards.map (fun c => (c.label, c.start_idx)) = lineMatches demoLines :=
  (populateCards_segmentation demoLines demoCards (by decide)).1

/-- C6: a table group of 3 contiguous table-tagged fields with row count 4
expands into 12 sequential per-row descriptors in row-major order (each row
repeating the 3 columns in declaration order), and decoding maps each of the
3 original keys to the 4-element sequence of that column's per-row values,
appended row by row.  The parsed values are taken as `10 * row + column`
(with the leading scalar as 10), making the positional routing explicit. -/
theorem table_group_expansion :
    expandTables tableGroupRecords =
      some [amassRecord,
        tempRecord, sigzRecord, itypeRecord,
        tempRecord, sigzRecord, itypeRecord,
        tempRecord, sigzRecord, itypeRecord,
        tempRecord, sigzRecord, itypeRecord] ∧
    read_records tableGroupRecords
        ([10, 11, 12, 13, 21, 22, 23, 31, 32, 33, 41, 42, 43] : List Nat) =
      some [(some "amass", ResVal.one 10),
        (some "temp", ResVal.many [11, 21, 31, 41]),
        (some "sigz", ResVal.many [12, 22, 32, 42]),
        (some "itype", ResVal.many [13, 23, 33, 43])] := by
  decide

end ParseMatxs

end Myskoxe
